import Mathlib

/- Verification development for the heat repository fragments:
   src/heat/core/types.py      (canonical types, safe-cast table, promote_types)
   src/heat/core/metrics.py    (EuclidianDistance, GaussianDistance, similarity ring engine)
   src/heat/optim/dp_optimizer.py (DASO cadence controller and parameter codec)

   Tensor data is modelled with exact real numbers; machine floats are out of scope.
   Message passing in the ring engine is resolved statically: a blocking Recv on a tag
   receives exactly the block that the matched Send on that tag carries, so the engine
   is embedded as the deterministic sequence of tile writes each rank performs. -/

set_option maxHeartbeats 1000000

namespace Heat

/-! Part 1: the canonical type lattice of src/heat/core/types.py. -/

/-- Canonical heat types, in the order of the `__type_codes` table (codes 0..7). -/
inductive DType where
  | bool | uint8 | int8 | int16 | int32 | int64 | float32 | float64
deriving DecidableEq, Fintype, Repr

/-- Key order of `__type_codes`: the iteration order used by `__type_promotions`. -/
def typeOrder : List DType :=
  [DType.bool, DType.uint8, DType.int8, DType.int16,
   DType.int32, DType.int64, DType.float32, DType.float64]

/-- Row of the `__safe_cast` table for a source type: which targets are safe casts. -/
def safeCastRow (a : DType) : DType → Bool :=
  fun b =>
    match a, b with
    | DType.bool, _ => true
    | DType.uint8, DType.uint8 | DType.uint8, DType.int16 | DType.uint8, DType.int32
    | DType.uint8, DType.int64 | DType.uint8, DType.float32 | DType.uint8, DType.float64 => true
    | DType.uint8, _ => false
    | DType.int8, DType.int8 | DType.int8, DType.int16 | DType.int8, DType.int32
    | DType.int8, DType.int64 | DType.int8, DType.float32 | DType.int8, DType.float64 => true
    | DType.int8, _ => false
    | DType.int16, DType.int16 | DType.int16, DType.int32 | DType.int16, DType.int64
    | DType.int16, DType.float32 | DType.int16, DType.float64 => true
    | DType.int16, _ => false
    | DType.int32, DType.int32 | DType.int32, DType.int64 | DType.int32, DType.float64 => true
    | DType.int32, _ => false
    | DType.int64, DType.int64 | DType.int64, DType.float64 => true
    | DType.int64, _ => false
    | DType.float32, DType.float32 | DType.float32, DType.float64 => true
    | DType.float32, _ => false
    | DType.float64, DType.float64 => true
    | DType.float64, _ => false

/-- `can_cast(from, to, casting='safe')` for canonical types: a lookup in `__safe_cast`. -/
def can_cast (a b : DType) : Bool := safeCastRow a b

/-- `__type_promotions` entry construction followed by the `promote_types` lookup:
for operands `a`, `b`, the first `target` in `__type_codes` key order with
`can_cast(a, target) and can_cast(b, target)`; `None` when no target matches. -/
def promote_types (a b : DType) : Option DType :=
  typeOrder.find? (fun t => can_cast a t && can_cast b t)

/-! Part 2: the metric functors of src/heat/core/metrics.py.
    A torch matrix is a shape pair, an element dtype and an entry function. -/

/-- Model of a 2-D torch tensor: shape `(rows, cols)`, element dtype, entries. -/
structure TorchMat where
  rows : ℕ
  cols : ℕ
  dtype : DType
  entry : ℕ → ℕ → ℝ

/-- `EuclidianDistance.__call__`: rejects differing feature dimensions, else returns the
`k1 × k2` float64 matrix with entries `sqrt(((Y[j] - X[i]) ** 2).sum())`. -/
noncomputable def EuclidianDistance (X Y : TorchMat) : Except String TorchMat :=
  if X.cols ≠ Y.cols then
    Except.error "X and Y have differing feature dimensions (dim = 1), should be equal"
  else
    Except.ok
      { rows := X.rows, cols := Y.rows, dtype := DType.float64,
        entry := fun i j =>
          Real.sqrt (∑ d ∈ Finset.range X.cols, (Y.entry j d - X.entry i d) ^ 2) }

/-- `GaussianDistance.__call__` with parameter `sigma`: rejects differing feature
dimensions, else returns the `k1 × k2` float64 matrix with entries
`exp(-((Y[j] - X[i]) ** 2).sum() / (2 * sigma * sigma))`. -/
noncomputable def GaussianDistance (sigma : ℝ) (X Y : TorchMat) : Except String TorchMat :=
  if X.cols ≠ Y.cols then
    Except.error "X and Y have differing feature dimensions (dim = 1), should be equal"
  else
    Except.ok
      { rows := X.rows, cols := Y.rows, dtype := DType.float64,
        entry := fun i j =>
          Real.exp (-(∑ d ∈ Finset.range X.cols, (Y.entry j d - X.entry i d) ^ 2)
            / (2 * sigma * sigma)) }

/-! Part 3: the ring distance engine of `similarity` (src/heat/core/metrics.py).
    `P` ranks; rank `r` owns the stationary row block `[displ r, rowEnd r)` of the
    global `N × F` matrix `X`.  `k` is the row kernel of the metric functor:
    `metric(A, B)[a][b] = k (row a of A) (row b of B)` for both supplied metrics. -/

/-- Python `%` on an integer with a natural modulus (result is the nonnegative residue). -/
def pymod (a : ℤ) (n : ℕ) : ℕ := (a % (n : ℤ)).toNat

/-- `num_iter = (size + 1) // 2`. -/
def numIter (P : ℕ) : ℕ := (P + 1) / 2

/-- End of rank `r`'s own row band: `displ[rank+1] if (rank + 1) != size else K`. -/
def rowEnd (P N : ℕ) (displ : ℕ → ℕ) (r : ℕ) : ℕ :=
  if r + 1 ≠ P then displ (r + 1) else N

/-- End of the column band of rank `s`: `displ[sender+1] if sender != size - 1 else K`. -/
def colEnd (P N : ℕ) (displ : ℕ → ℕ) (s : ℕ) : ℕ :=
  if s ≠ P - 1 then displ (s + 1) else N

/-- Local stationary block of rank `r`: local row `a` is global row `displ r + a`. -/
def blockT (displ : ℕ → ℕ) (X : ℕ → ℕ → ℝ) (r : ℕ) : ℕ → ℕ → ℝ :=
  fun a => X (displ r + a)

/-- Entries of `metric(A, B)` for a row kernel `k`. -/
def metricTile (k : (ℕ → ℝ) → (ℕ → ℝ) → ℝ) (A B : ℕ → ℕ → ℝ) : ℕ → ℕ → ℝ :=
  fun a b => k (A a) (B b)

/-- The distributed output matrix under construction: entry values (initialised to the
zeros of `factories.zeros`) together with a flag telling whether a tile assignment has
touched the entry. -/
structure SimState where
  val : ℕ → ℕ → ℝ
  written : ℕ → ℕ → Bool

/-- One in-place tile assignment `S[r1:r2, c1:c2] = f`. -/
structure TileWrite where
  r1 : ℕ
  r2 : ℕ
  c1 : ℕ
  c2 : ℕ
  f : ℕ → ℕ → ℝ

/-- The write covers global entry `(i, j)`. -/
def TileWrite.covers (w : TileWrite) (i j : ℕ) : Prop :=
  w.r1 ≤ i ∧ i < w.r2 ∧ w.c1 ≤ j ∧ j < w.c2

instance (w : TileWrite) (i j : ℕ) : Decidable (w.covers i j) := by
  unfold TileWrite.covers; infer_instance

/-- Execute one tile assignment. -/
def applyWrite (st : SimState) (w : TileWrite) : SimState :=
  { val := fun i j => if w.covers i j then w.f (i - w.r1) (j - w.c1) else st.val i j,
    written := fun i j => if w.covers i j then true else st.written i j }

/-- Iteration 0: `d_ij = metric(stationary, stationary)` placed on the diagonal tile
`S[rows, rows]`. -/
def diagWrite (P N : ℕ) (displ : ℕ → ℕ) (k : (ℕ → ℝ) → (ℕ → ℝ) → ℝ)
    (X : ℕ → ℕ → ℝ) (r : ℕ) : TileWrite :=
  ⟨displ r, rowEnd P N displ r, displ r, rowEnd P N displ r,
    metricTile k (blockT displ X r) (blockT displ X r)⟩

/-- Iteration `i` direct tile: the moving block received on tag `i` is the stationary
block of `sender = (rank - i) % size`, and `d_ij = metric(stationary, moving)` is placed
at `S[rows, columns]` with `columns` the band of `sender`. -/
def directWrite (P N : ℕ) (displ : ℕ → ℕ) (k : (ℕ → ℝ) → (ℕ → ℝ) → ℝ)
    (X : ℕ → ℕ → ℝ) (r i : ℕ) : TileWrite :=
  ⟨displ r, rowEnd P N displ r,
    displ (pymod ((r : ℤ) - (i : ℤ)) P), colEnd P N displ (pymod ((r : ℤ) - (i : ℤ)) P),
    metricTile k (blockT displ X r) (blockT displ X (pymod ((r : ℤ) - (i : ℤ)) P))⟩

/-- Iteration `i` mirror tile: the `symmetric` buffer received on tag `i` from
`receiver = (rank + i) % size` is the `d_ij` the receiver computed against this rank's
block, i.e. `metric(stationary_receiver, stationary_r)`; it is transposed and placed at
`S[rows, scolumns]` with `scolumns` the band of `receiver`. -/
def mirrorWrite (P N : ℕ) (displ : ℕ → ℕ) (k : (ℕ → ℝ) → (ℕ → ℝ) → ℝ)
    (X : ℕ → ℕ → ℝ) (r i : ℕ) : TileWrite :=
  ⟨displ r, rowEnd P N displ r,
    displ ((r + i) % P), colEnd P N displ ((r + i) % P),
    fun a b => metricTile k (blockT displ X ((r + i) % P)) (blockT displ X r) b a⟩

/-- The extra iteration guarded by `(size + 1) % 2 != 0`: ranks `r < size // 2` compute
and place the direct tile against `sender = (rank - num_iter) % size`; the other ranks
place the transposed tile received from `receiver = (rank + num_iter) % size`. -/
def tailProgram (P N : ℕ) (displ : ℕ → ℕ) (k : (ℕ → ℝ) → (ℕ → ℝ) → ℝ)
    (X : ℕ → ℕ → ℝ) (r : ℕ) : List TileWrite :=
  if (P + 1) % 2 ≠ 0 then
    if r < P / 2 then [directWrite P N displ k X r (numIter P)]
    else [mirrorWrite P N displ k X r (numIter P)]
  else []

/-- All tile assignments rank `r` performs, in program order: the diagonal, then for
`iter in range(1, num_iter)` the direct tile followed by the mirror tile, then the
extra iteration. -/
def rankProgram (P N : ℕ) (displ : ℕ → ℕ) (k : (ℕ → ℝ) → (ℕ → ℝ) → ℝ)
    (X : ℕ → ℕ → ℝ) (r : ℕ) : List TileWrite :=
  diagWrite P N displ k X r ::
    ((List.range' 1 (numIter P - 1)).flatMap
      (fun i => [directWrite P N displ k X r i, mirrorWrite P N displ k X r i])
      ++ tailProgram P N displ k X r)

/-- The output of `factories.zeros((K, K))`: all entries 0, nothing written yet. -/
def initSimState : SimState := ⟨fun _ _ => 0, fun _ _ => false⟩

/-- Execute a rank's tile assignments. -/
def rankWrites (P N : ℕ) (displ : ℕ → ℕ) (k : (ℕ → ℝ) → (ℕ → ℝ) → ℝ)
    (X : ℕ → ℕ → ℝ) (r : ℕ) (st : SimState) : SimState :=
  (rankProgram P N displ k X r).foldl applyWrite st

/-- The completed global similarity matrix: each rank writes only tiles in its own row
band, so the union over ranks of the per-rank assignments is order independent and is
taken in rank order. -/
def ringResult (P N : ℕ) (displ : ℕ → ℕ) (k : (ℕ → ℝ) → (ℕ → ℝ) → ℝ)
    (X : ℕ → ℕ → ℝ) : SimState :=
  (List.range P).foldl (fun st r => rankWrites P N displ k X r st) initSimState

/-! Part 4: the communication trace of `similarity` per rank, and its guards. -/

/-- Point-to-point transport events of one rank: peer and tag. -/
inductive Ev where
  | probe : ℕ → ℕ → Ev
  | recv : ℕ → ℕ → Ev
  | send : ℕ → ℕ → Ev
deriving DecidableEq, Repr

/-- The branch chosen by `(rank // iter) == 0`: such ranks send before probing. -/
def sendsFirst (r i : ℕ) : Prop := r / i = 0

instance (r i : ℕ) : Decidable (sendsFirst r i) := by
  unfold sendsFirst; infer_instance

/-- Transport events of rank `r` in main-loop iteration `i`, in program order:
ranks with `rank // iter != 0` probe and receive the moving block first, everyone sends
the stationary block to `receiver`, ranks with `rank // iter == 0` then probe and
receive; the mirror tile is received from `receiver` and `d_ij` is sent to `sender`,
again ordered by `rank // iter`. -/
def iterEvents (P r i : ℕ) : List Ev :=
  (if ¬ sendsFirst r i
    then [Ev.probe (pymod ((r : ℤ) - (i : ℤ)) P) i, Ev.recv (pymod ((r : ℤ) - (i : ℤ)) P) i]
    else [])
  ++ [Ev.send ((r + i) % P) i]
  ++ (if sendsFirst r i
    then [Ev.probe (pymod ((r : ℤ) - (i : ℤ)) P) i, Ev.recv (pymod ((r : ℤ) - (i : ℤ)) P) i]
    else [])
  ++ (if ¬ sendsFirst r i then [Ev.recv ((r + i) % P) i] else [])
  ++ [Ev.send (pymod ((r : ℤ) - (i : ℤ)) P) i]
  ++ (if sendsFirst r i then [Ev.recv ((r + i) % P) i] else [])

/-- Transport events of rank `r` in the extra iteration guarded by
`(size + 1) % 2 != 0`: ranks `r < size // 2` probe, receive the moving block and send
the computed tile back; the other ranks send their stationary block and receive the
mirror tile. -/
def tailEvents (P r : ℕ) : List Ev :=
  if (P + 1) % 2 ≠ 0 then
    if r < P / 2 then
      [Ev.probe (pymod ((r : ℤ) - (numIter P : ℤ)) P) (numIter P),
       Ev.recv (pymod ((r : ℤ) - (numIter P : ℤ)) P) (numIter P),
       Ev.send (pymod ((r : ℤ) - (numIter P : ℤ)) P) (numIter P)]
    else
      [Ev.send ((r + numIter P) % P) (numIter P),
       Ev.recv ((r + numIter P) % P) (numIter P)]
  else []

/-- All transport events of rank `r` during the engine, in program order. -/
def rankEvents (P r : ℕ) : List Ev :=
  ((List.range' 1 (numIter P - 1)).flatMap (iterEvents P r)) ++ tailEvents P r

/-- The distributed input container as `similarity` sees it: global shape, split axis,
and (for the 2-D case) the global entries. -/
structure DNDarray where
  shape : List ℕ
  split : Option ℕ
  data : ℕ → ℕ → ℝ

/-- `similarity(X, metric)` at one rank, with the communication it performs: the two
guards raise before any communication event; otherwise the rank runs the ring engine
(whose collective outcome is `ringResult`) and performs `rankEvents`. -/
def similarityRun (A : DNDarray) (P : ℕ) (displ : ℕ → ℕ)
    (k : (ℕ → ℝ) → (ℕ → ℝ) → ℝ) (r : ℕ) : List Ev × Except String SimState :=
  if A.split ≠ none ∧ A.split ≠ some 0 then
    ([], Except.error "Feature Splitting is not supported")
  else if 2 < A.shape.length then
    ([], Except.error "Only 2D data matrices are supported")
  else
    (rankEvents P r, Except.ok (ringResult P (A.shape.headD 0) displ k A.data))

/-! Part 5: the DASO parameter codec (src/heat/optim/dp_optimizer.py).
    A named parameter is its flattened data (a real-valued function with an explicit
    element count) and its `requires_grad` flag.  `_gs_create_param_dict` walks ALL
    named parameters, assigning slice `[st, st + numel)` and advancing `st` for every
    parameter; the final `st` is `_param_send_buffer_size`. -/

/-- One named module parameter with flattened data. -/
structure TParam where
  name : String
  numel : ℕ
  data : ℕ → ℝ
  requiresGrad : Bool

/-- The slice start `_gs_create_param_dict` assigns to the parameter at position
`idx`: the sum of `numel` over every earlier parameter (`requires_grad` or not). -/
def offsetAt (ps : List TParam) (idx : ℕ) : ℕ :=
  ((ps.take idx).map TParam.numel).sum

/-- `_param_send_buffer_size`: the running `st` after walking every named parameter. -/
def paramSendBufferSize (ps : List TParam) : ℕ :=
  ps.foldl (fun st p => st + p.numel) 0

/-- One slice assignment `buf[st : st + n] = src` on a flat buffer. -/
def writeSlice (buf : ℕ → ℝ) (st n : ℕ) (src : ℕ → ℝ) : ℕ → ℝ :=
  fun idx => if st ≤ idx ∧ idx < st + n then src (idx - st) else buf idx

/-- The loop of `DASO.__pack_data` (no cast): for each parameter with `requires_grad`,
copy the flattened data into the buffer at the running offset `st` and advance `st` by
`numel`; parameters without `requires_grad` are skipped and do not advance `st`. -/
def packFrom (buf : ℕ → ℝ) (st : ℕ) : List TParam → (ℕ → ℝ)
  | [] => buf
  | p :: rest =>
    if p.requiresGrad then packFrom (writeSlice buf st p.numel p.data) (st + p.numel) rest
    else packFrom buf st rest

/-- `__pack_data` applied to the preallocated zero buffer of `_param_send_buffer_size`
elements, starting at offset 0. -/
def gsSendBuffer (ps : List TParam) : ℕ → ℝ := packFrom (fun _ => 0) 0 ps

/-- The parameter loop of `_gs_rcv_update_params` (single-buffer path): walking the
named parameters with the slice offsets of `_gs_create_param_dict` (so `st` advances
for every parameter), each parameter with `requires_grad` becomes
`factor * param + (B / denom)[slice]`; reshape and the dtype cast are identities in
this real-valued model. -/
noncomputable def blendFrom (B : ℕ → ℝ) (factor denom : ℝ) : ℕ → List TParam → List TParam
  | _, [] => []
  | st, p :: rest =>
    (if p.requiresGrad then
      { p with data := fun t => factor * p.data t + B (st + t) / denom }
     else p) :: blendFrom B factor denom (st + p.numel) rest

/-- `_gs_rcv_update_params` (single-buffer path) for a received buffer `B` summed over
`S` subgroup ranks, with record age `b = batches_since_send`:
`numer = b * 2.0 if b > 0.0 else 1.0`, `denom = S + numer`, `factor = numer / denom`,
then the blend loop. -/
noncomputable def gsRcvUpdateParams (ps : List TParam) (B : ℕ → ℝ) (b S : ℕ) :
    List TParam :=
  let numer : ℝ := if (0 : ℝ) < (b : ℝ) then (b : ℝ) * 2 else 1
  let denom : ℝ := (S : ℝ) + numer
  blendFrom B (numer / denom) denom 0 ps

/-- The parameter loop of `_gs_rcv_update_params_last_batch` (single-buffer path):
each parameter with `requires_grad` is replaced by `(B / |current_ranks|)[slice]`. -/
noncomputable def replaceFrom (B : ℕ → ℝ) (denom : ℝ) : ℕ → List TParam → List TParam
  | _, [] => []
  | st, p :: rest =>
    (if p.requiresGrad then { p with data := fun t => B (st + t) / denom } else p)
      :: replaceFrom B denom (st + p.numel) rest

/-- `_gs_rcv_update_params_last_batch` (single-buffer path) over `S` subgroup ranks. -/
noncomputable def gsRcvUpdateLast (ps : List TParam) (B : ℕ → ℝ) (S : ℕ) : List TParam :=
  replaceFrom B (S : ℝ) 0 ps

/-! Part 6: the cadence transition `DASO.epoch_loss_logic`.
    All counters are Python integers, modelled as `ℤ`; `//` is Python floor division,
    which on `ℤ` with the positive literal divisors 2 and 4 is Lean's `/`.  The plateau
    verdict `stable = self.stability.test_if_improving(avg_loss)` only feeds the
    branches below, so the transition is parametrised by that Boolean. -/

/-- The cadence fields of the DASO state read or written by `epoch_loss_logic`. -/
structure CadState where
  epoch : ℤ
  warmupEpochs : ℤ
  cooldownEpochs : ℤ
  totalEpochs : ℤ
  maxGs : ℤ
  globalSkip : ℤ
  localSkip : ℤ
  batchesToWait : ℤ
  gs8Waited : ℤ
deriving DecidableEq, Repr

/-- `DASO.epoch_loss_logic`, with `stable` the plateau detector's verdict on the
averaged loss. -/
def epochLossLogic (s : CadState) (stable : Bool) : CadState :=
  if s.epoch < s.warmupEpochs then
    { s with globalSkip := 0, localSkip := 0, batchesToWait := 0 }
  else
    let s1 := if s.warmupEpochs = s.epoch then
        { s with globalSkip := 4, localSkip := 1, batchesToWait := 1 }
      else s
    if s1.totalEpochs - s1.cooldownEpochs ≤ s1.epoch then
      { s1 with globalSkip := 0, localSkip := 0, batchesToWait := 0 }
    else
      let s2 := if s1.globalSkip = s1.maxGs ∧ 4 < s1.maxGs then
          { s1 with gs8Waited := s1.gs8Waited + 1 }
        else s1
      if stable = true ∧ 1 < s2.globalSkip then
        let g := s2.globalSkip / 2
        let l := s2.localSkip / 2
        let w := s2.batchesToWait - 1
        { s2 with globalSkip := g,
                  localSkip := if 0 < g ∧ l = 0 then 1 else l,
                  batchesToWait := if 0 < g ∧ w = 0 then 1 else w,
                  gs8Waited := 0 }
      else if s2.globalSkip = 1 ∧ stable = true then
        { s2 with globalSkip := s2.maxGs, localSkip := s2.maxGs / 4,
                  batchesToWait := s2.maxGs / 4, gs8Waited := 0 }
      else s2

/-- The cadence invariants of spec §3 that C8 asserts: `0 ≤ g ≤ G_max`, `0 ≤ w`, and
`w ≥ 1` whenever `g > 0`. -/
def CadInv (s : CadState) : Prop :=
  0 ≤ s.globalSkip ∧ s.globalSkip ≤ s.maxGs ∧ 0 ≤ s.batchesToWait ∧
    (0 < s.globalSkip → 1 ≤ s.batchesToWait)

instance (s : CadState) : Decidable (CadInv s) := by
  unfold CadInv; infer_instance

/-! Part 7: the per-rank send-record bookkeeping of `DASO.step` and
    `DASO._global_sync`.  Only the fields that the synchronisation logic reads or
    writes are modelled; a send record in `_prev_params` is represented by the
    `batches_to_wait` value stored with it.  Subgroup `i` of `reduced_ranks` holds the
    ranks congruent to `i` modulo `loc_gpus`.  Internal failures (the queue-length
    `ValueError`s and `pop` on an empty list) are modelled as `none`. -/

/-- The DASO fields driving the send/receive bookkeeping of `step`. -/
structure DasoState where
  currentBatch : ℕ
  lastBatch : ℕ
  epoch : ℕ
  globalSkip : ℕ
  localSkip : ℕ
  batchesToWait : ℕ
  sendMod : ℕ
  sendModM1 : Option ℕ
  prevParams : List ℕ
  locGpus : ℕ
  rank : ℕ
  syncOn : Bool
deriving DecidableEq, Repr

/-- `_start_local_sync`: net effect is turning the local gradient-sync flag on. -/
def startLocalSync (s : DasoState) : DasoState := { s with syncOn := true }

/-- `_stop_local_sync`: net effect is turning the local gradient-sync flag off. -/
def stopLocalSync (s : DasoState) : DasoState := { s with syncOn := false }

/-- `_gs_rcv_update_params`: returns unchanged when `_send_mod_m1` is unset, the rank
is not in the previous subgroup, or no record is queued; otherwise pops the record
(and merges the received parameters, which does not affect this state). -/
def dasoRcvUpdate (s : DasoState) : DasoState :=
  match s.sendModM1 with
  | none => s
  | some m1 =>
    if s.rank % s.locGpus = m1 ∧ s.prevParams ≠ [] then
      { s with prevParams := s.prevParams.tail }
    else s

/-- `_gs_rcv_update_params_last_batch`: raises when more than one record is queued,
raises (IndexError) when popping an empty queue, else pops the single record. -/
def dasoRcvLast (s : DasoState) : Option DasoState :=
  if 1 < s.prevParams.length then none
  else
    match s.prevParams with
    | [] => none
    | _ :: rest => some { s with prevParams := rest }

/-- The posting stage of `_global_sync`: ranks of the current subgroup pack and post
the non-blocking reduction, appending a send record. -/
def syncPost (s : DasoState) (btw : ℕ) : DasoState :=
  if s.rank % s.locGpus = s.sendMod then
    { s with prevParams := s.prevParams ++ [btw] }
  else s

/-- The mid completion stage of `_global_sync`: when `batches_to_wait != 0` the
previously posted record is completed (`_gs_rcv_update_params` + `_local_update`). -/
def syncMid (s : DasoState) : DasoState :=
  if s.batchesToWait ≠ 0 then dasoRcvUpdate s else s

/-- `self._send_mod + 1 if self._send_mod <= self.loc_gpus - 2 else 0`. -/
def rotateMod (cur L : ℕ) : ℕ := if cur ≤ L - 2 then cur + 1 else 0

/-- The terminal stage of `_global_sync`, reached on the last batch or when
`batches_to_wait == 0`: ranks of the current subgroup complete the just-posted record
(`_gs_rcv_update_params_last_batch`) while all other ranks must have an empty queue
(else the DEBUG `ValueError` fires); then `_send_mod_m1` is cleared and the batch and
epoch counters advance. -/
def syncFinish (s : DasoState) (cur : ℕ) : Option DasoState :=
  match (if s.rank % s.locGpus = cur then dasoRcvLast s
         else if s.prevParams ≠ [] then none else some s) with
  | none => none
  | some s3 =>
    let s4 := { s3 with sendModM1 := none }
    if s4.currentBatch = s4.lastBatch then
      some { s4 with sendMod := 0, epoch := s4.epoch + 1, currentBatch := 0 }
    else
      some { s4 with currentBatch := s4.currentBatch + 1,
                     sendMod := rotateMod cur s4.locGpus }

/-- `_global_sync(batches_to_wait)`: post, complete the previous record if waiting,
then either return early (advancing batch and rotating the subgroup index) or run the
terminal stage. -/
def dasoGlobalSync (s : DasoState) (btw : ℕ) : Option DasoState :=
  let cur := s.sendMod
  let s2 := syncMid (syncPost s btw)
  if s2.currentBatch ≠ s2.lastBatch ∧ s2.batchesToWait ≠ 0 then
    some { s2 with currentBatch := s2.currentBatch + 1,
                   sendModM1 := some cur,
                   sendMod := rotateMod cur s2.locGpus }
  else syncFinish s2 cur

/-- `DASO.step` after the local optimizer update: the send/receive cadence machine.
The guard order follows the source; `%` by zero is never reached because `gmod`
(resp. `lmod`) is defined as 0 when the skip is 0 and the earlier branch then fires. -/
def dasoStep (s : DasoState) : Option DasoState :=
  let batch := s.currentBatch
  let next := batch + 1
  let gs := s.globalSkip
  let ls := s.localSkip
  let gmod := if 0 < gs then batch % gs else 0
  let lmod := if 0 < ls then batch % ls else 0
  let btw := if s.batchesToWait + batch ≤ s.lastBatch then s.batchesToWait
    else s.lastBatch - batch
  if batch = s.lastBatch ∨ gmod = 0 then
    dasoGlobalSync s btw
  else if next % gs = 0 then
    some (startLocalSync { s with currentBatch := batch + 1 })
  else if gmod < btw then
    some (if next = s.lastBatch then startLocalSync { s with currentBatch := batch + 1 }
      else { s with currentBatch := batch + 1 })
  else
    let s1 := if gmod = btw then
        (let t := dasoRcvUpdate s
         if 1 < ls then stopLocalSync t else t)
      else s
    if ls = 1 ∧ next ≠ s1.lastBatch then
      some (startLocalSync { s1 with currentBatch := s1.currentBatch + 1 })
    else
      let s2 := if lmod = 0 then stopLocalSync s1
        else if next % ls = 0 then startLocalSync s1 else s1
      let s3 := if next = s2.lastBatch then startLocalSync s2 else s2
      some { s3 with currentBatch := s3.currentBatch + 1 }

/-- The send-record invariant of C9, per rank: the queue holds at most one record; a
queued record belongs to this rank's subgroup, which is recorded in `_send_mod_m1` and
differs from the currently sending subgroup, and was posted with a nonzero wait; the
batch counter stays in range and the rotating subgroup index stays in range.  Requires
at least two local GPUs (with fewer, `DASO.__init__` never builds the subgroups). -/
def DasoInv (s : DasoState) : Prop :=
  s.currentBatch ≤ s.lastBatch ∧
  s.sendMod < s.locGpus ∧
  s.prevParams.length ≤ 1 ∧
  (s.prevParams ≠ [] → s.sendModM1 = some (s.rank % s.locGpus) ∧ s.batchesToWait ≠ 0) ∧
  s.sendModM1 ≠ some s.sendMod ∧
  2 ≤ s.locGpus

instance (s : DasoState) : Decidable (DasoInv s) := by
  unfold DasoInv; infer_instance

/-! Theorems. -/

/-- C10: for every pair of the eight canonical types, `promote_types` is defined
(never `None`) and yields a type to which both operands can be safely cast per the
safe-cast table; it is commutative. -/
theorem C10_promote_types_total_comm :
    ∀ a b : DType,
      (∃ t, promote_types a b = some t ∧ can_cast a t = true ∧ can_cast b t = true) ∧
      promote_types a b = promote_types b a := by decide

/-- C2: on 2-D inputs with equal feature dimension, the Euclidean metric returns the
full k1 × k2 matrix `D[i,j] = sqrt(sum_d (X[i,d] - Y[j,d])^2)` and the Gaussian metric
returns `K[i,j] = exp(-sum_d (X[i,d] - Y[j,d])^2 / (2 sigma^2))`, both with element
dtype float64 regardless of the input dtypes. -/
theorem C2_metric_formulas (X Y : TorchMat) (sigma : ℝ) (h : X.cols = Y.cols) :
    (∃ D, EuclidianDistance X Y = Except.ok D ∧ D.rows = X.rows ∧ D.cols = Y.rows ∧
      D.dtype = DType.float64 ∧
      ∀ i j, D.entry i j =
        Real.sqrt (∑ d ∈ Finset.range X.cols, (X.entry i d - Y.entry j d) ^ 2)) ∧
    (∃ K, GaussianDistance sigma X Y = Except.ok K ∧ K.rows = X.rows ∧ K.cols = Y.rows ∧
      K.dtype = DType.float64 ∧
      ∀ i j, K.entry i j =
        Real.exp (-(∑ d ∈ Finset.range X.cols, (X.entry i d - Y.entry j d) ^ 2)
          / (2 * sigma * sigma))) := by
  have hne : ¬ X.cols ≠ Y.cols := by simp [h]
  have he : EuclidianDistance X Y = Except.ok
      { rows := X.rows, cols := Y.rows, dtype := DType.float64,
        entry := fun i j =>
          Real.sqrt (∑ d ∈ Finset.range X.cols, (Y.entry j d - X.entry i d) ^ 2) } := by
    rw [EuclidianDistance, if_neg hne]
  have hg : GaussianDistance sigma X Y = Except.ok
      { rows := X.rows, cols := Y.rows, dtype := DType.float64,
        entry := fun i j =>
          Real.exp (-(∑ d ∈ Finset.range X.cols, (Y.entry j d - X.entry i d) ^ 2)
            / (2 * sigma * sigma)) } := by
    rw [GaussianDistance, if_neg hne]
  refine ⟨⟨_, he, rfl, rfl, rfl, fun i j => ?_⟩, ⟨_, hg, rfl, rfl, rfl, fun i j => ?_⟩⟩
  · have hsum : (∑ d ∈ Finset.range X.cols, (Y.entry j d - X.entry i d) ^ 2)
        = ∑ d ∈ Finset.range X.cols, (X.entry i d - Y.entry j d) ^ 2 :=
      Finset.sum_congr rfl fun d _ => by ring
    dsimp only
    rw [hsum]
  · have hsum : (∑ d ∈ Finset.range X.cols, (Y.entry j d - X.entry i d) ^ 2)
        = ∑ d ∈ Finset.range X.cols, (X.entry i d - Y.entry j d) ^ 2 :=
      Finset.sum_congr rfl fun d _ => by ring
    dsimp only
    rw [hsum]

/-- Concrete tensors for the C2 witness. -/
def matA : TorchMat := ⟨1, 1, DType.int32, fun _ _ => 3⟩

/-- Concrete tensors for the C2 witness. -/
def matB : TorchMat := ⟨1, 1, DType.float32, fun _ _ => 1⟩

/-- Witness for C2 at two concrete 1 × 1 tensors of non-float64 dtype. -/
theorem C2_metric_formulas_witness :
    (∃ D, EuclidianDistance matA matB = Except.ok D ∧ D.rows = matA.rows ∧
      D.cols = matB.rows ∧ D.dtype = DType.float64 ∧
      ∀ i j, D.entry i j =
        Real.sqrt (∑ d ∈ Finset.range matA.cols, (matA.entry i d - matB.entry j d) ^ 2)) ∧
    (∃ K, GaussianDistance 1 matA matB = Except.ok K ∧ K.rows = matA.rows ∧
      K.cols = matB.rows ∧ K.dtype = DType.float64 ∧
      ∀ i j, K.entry i j =
        Real.exp (-(∑ d ∈ Finset.range matA.cols, (matA.entry i d - matB.entry j d) ^ 2)
          / (2 * 1 * 1))) :=
  C2_metric_formulas matA matB 1 rfl

/-- C3: `similarity` fails on split = 1 and on more-than-2-D inputs with an error
surfaced before any communication event, and each metric functor errors when the
feature dimensions differ. -/
theorem C3_guard_errors (A : DNDarray) (P : ℕ) (displ : ℕ → ℕ)
    (k : (ℕ → ℝ) → (ℕ → ℝ) → ℝ) (r : ℕ) (X Y : TorchMat) (sigma : ℝ)
    (hA : A.split = some 1 ∨ 2 < A.shape.length) (hXY : X.cols ≠ Y.cols) :
    (∃ msg, (similarityRun A P displ k r).2 = Except.error msg) ∧
    (similarityRun A P displ k r).1 = [] ∧
    EuclidianDistance X Y =
      Except.error "X and Y have differing feature dimensions (dim = 1), should be equal" ∧
    GaussianDistance sigma X Y =
      Except.error "X and Y have differing feature dimensions (dim = 1), should be equal" := by
  refine ⟨?_, ?_, by rw [EuclidianDistance, if_pos hXY], by rw [GaussianDistance, if_pos hXY]⟩
  · unfold similarityRun
    by_cases hc : A.split ≠ none ∧ A.split ≠ some 0
    · rw [if_pos hc]; exact ⟨_, rfl⟩
    · rw [if_neg hc]
      rcases hA with h1 | h2
      · exact absurd ⟨by simp [h1], by simp [h1]⟩ hc
      · rw [if_pos h2]; exact ⟨_, rfl⟩
  · unfold similarityRun
    by_cases hc : A.split ≠ none ∧ A.split ≠ some 0
    · rw [if_pos hc]
    · rw [if_neg hc]
      rcases hA with h1 | h2
      · exact absurd ⟨by simp [h1], by simp [h1]⟩ hc
      · rw [if_pos h2]

/-- Concrete input for the C3 witness: a 2-D array distributed along axis 1. -/
def splitOneArray : DNDarray := ⟨[4, 4], some 1, fun _ _ => 0⟩

/-- Witness for C3 at a split-1 array and 1 × 1 vs 1 × 2 tensors. -/
theorem C3_guard_errors_witness :
    (∃ msg, (similarityRun splitOneArray 2 (fun _ => 0) (fun _ _ => 0) 0).2 =
      Except.error msg) ∧
    (similarityRun splitOneArray 2 (fun _ => 0) (fun _ _ => 0) 0).1 = [] ∧
    EuclidianDistance matA ⟨1, 2, DType.float64, fun _ _ => 0⟩ =
      Except.error "X and Y have differing feature dimensions (dim = 1), should be equal" ∧
    GaussianDistance 1 matA ⟨1, 2, DType.float64, fun _ _ => 0⟩ =
      Except.error "X and Y have differing feature dimensions (dim = 1), should be equal" :=
  C3_guard_errors splitOneArray 2 (fun _ => 0) (fun _ _ => 0) 0 matA
    ⟨1, 2, DType.float64, fun _ _ => 0⟩ 1 (Or.inl rfl) (by decide)

/-- C6 is false as stated: at P = 5, main-loop iteration i = 2 (admissible since
2 < (5+1)//2 = 3), the ordered pair sender = 2, receiver = (2+2) % 5 = 4 has NEITHER
rank satisfying `r // i == 0`, so it is not the case that exactly one side sends
first. -/
theorem C6_counterexample :
    1 ≤ 2 ∧ 2 < numIter 5 ∧ (2 + 2) % 5 = 4 ∧
    ¬ ((sendsFirst 2 2 ∧ ¬ sendsFirst 4 2) ∨ (¬ sendsFirst 2 2 ∧ sendsFirst 4 2)) := by
  decide

/-- C6 amended: for every main-loop iteration `1 ≤ i < (P+1)//2` and ordered
(sender, receiver) pair with gap `i`, at most one of the two ranks satisfies
`r // i == 0` — the two sides never both send first (but for some pairs neither side
does). -/
theorem C6_at_most_one_sends_first (P i sender : ℕ) (h1 : 1 ≤ i) (h2 : i < numIter P)
    (hs : sender < P) :
    ¬ (sendsFirst sender i ∧ sendsFirst ((sender + i) % P) i) := by
  rintro ⟨ha, hb⟩
  unfold sendsFirst at ha hb
  have hsi : sender < i := (Nat.div_eq_zero_iff (by omega)).1 ha
  have h2P : 2 * i ≤ P := by unfold numIter at h2; omega
  rw [Nat.mod_eq_of_lt (by omega)] at hb
  have : sender + i < i := (Nat.div_eq_zero_iff (by omega)).1 hb
  omega

/-- Witness for the amended C6 at P = 5, i = 2, sender = 0. -/
theorem C6_at_most_one_sends_first_witness :
    ¬ (sendsFirst 0 2 ∧ sendsFirst ((0 + 2) % 5) 2) :=
  C6_at_most_one_sends_first 5 2 0 (by decide) (by decide) (by decide)

/-- An admissible configuration (`max_global_skips = 0` passes `__init_checktypes`,
which only requires it nonnegative) in the state at the warmup boundary. -/
def cadSeedState : CadState :=
  { epoch := 0, warmupEpochs := 0, cooldownEpochs := 0, totalEpochs := 10, maxGs := 0,
    globalSkip := 0, localSkip := 0, batchesToWait := 0, gs8Waited := 0 }

/-- C8 is false as stated: with `max_global_skips = 0` (admissible since the
constructor only checks nonnegativity), a single `epoch_loss_logic` call at the warmup
boundary seeds `global_skip = 4 > max_gs`, violating `0 ≤ g ≤ G_max`. -/
theorem C8_counterexample :
    CadInv cadSeedState ∧ ¬ CadInv (epochLossLogic cadSeedState false) := by decide

/-- C8 amended: the §3 cadence invariants (`0 ≤ g ≤ G_max`, `0 ≤ w`, `w ≥ 1` whenever
`g > 0`) are preserved by every `epoch_loss_logic` call provided `max_global_skips ≥ 4`
(the cycling seed sets `g = 4` and the reset wait is `max_gs // 4`, so smaller ceilings
are violated, as the counterexample shows). -/
theorem C8_invariants_preserved (s : CadState) (stable : Bool) (hmax : 4 ≤ s.maxGs)
    (hinv : CadInv s) : CadInv (epochLossLogic s stable) := by
  obtain ⟨h1, h2, h3, h4⟩ := hinv
  unfold epochLossLogic CadInv
  by_cases hw : s.epoch < s.warmupEpochs
  · simp only [if_pos hw]
    omega
  rw [if_neg hw]
  set s1 : CadState := if s.warmupEpochs = s.epoch then
      { s with globalSkip := 4, localSkip := 1, batchesToWait := 1 } else s with hs1
  have e1 : s1.maxGs = s.maxGs ∧ 0 ≤ s1.globalSkip ∧ s1.globalSkip ≤ s1.maxGs ∧
      0 ≤ s1.batchesToWait ∧ (0 < s1.globalSkip → 1 ≤ s1.batchesToWait) := by
    rw [hs1]; split_ifs <;> (try dsimp only) <;> omega
  obtain ⟨e1m, e1a, e1b, e1c, e1d⟩ := e1
  by_cases hcool : s1.totalEpochs - s1.cooldownEpochs ≤ s1.epoch
  · simp only [if_pos hcool]
    omega
  rw [if_neg hcool]
  set s2 : CadState := if s1.globalSkip = s1.maxGs ∧ 4 < s1.maxGs then
      { s1 with gs8Waited := s1.gs8Waited + 1 } else s1 with hs2
  have e2 : s2.maxGs = s1.maxGs ∧ s2.globalSkip = s1.globalSkip ∧
      s2.batchesToWait = s1.batchesToWait := by
    rw [hs2]; split_ifs <;> (try dsimp only) <;> omega
  obtain ⟨e2m, e2a, e2b⟩ := e2
  by_cases hdrop : stable = true ∧ 1 < s2.globalSkip
  · simp only [if_pos hdrop]
    constructor
    · omega
    constructor
    · omega
    constructor
    · split_ifs <;> omega
    · intro hg
      split_ifs <;> omega
  rw [if_neg hdrop]
  by_cases hreset : s2.globalSkip = 1 ∧ stable = true
  · simp only [if_pos hreset]
    omega
  · rw [if_neg hreset]
    omega

/-- Slice start of the parameter after a cons. -/
theorem offsetAt_cons (a : TParam) (rest : List TParam) (n : ℕ) :
    offsetAt (a :: rest) (n + 1) = a.numel + offsetAt rest n := by
  simp [offsetAt]

/-- Element description of the blend loop: position `idx` receives the slice starting
at `st + offsetAt ps idx`, and only `requires_grad` parameters change. -/
theorem blendFrom_getElem (B : ℕ → ℝ) (factor denom : ℝ) (ps : List TParam) :
    ∀ (st idx : ℕ) (p : TParam), ps[idx]? = some p →
      ∃ q, (blendFrom B factor denom st ps)[idx]? = some q ∧
        q.requiresGrad = p.requiresGrad ∧ q.numel = p.numel ∧
        ∀ t, q.data t = if p.requiresGrad then
            factor * p.data t + B (st + offsetAt ps idx + t) / denom
          else p.data t := by
  induction ps with
  | nil => intro st idx p hp; simp at hp
  | cons a rest ih =>
    intro st idx p hp
    cases idx with
    | zero =>
      simp only [List.getElem?_cons_zero, Option.some.injEq] at hp
      subst hp
      refine ⟨if a.requiresGrad then
          { a with data := fun t => factor * a.data t + B (st + t) / denom }
        else a, by simp [blendFrom], ?_, ?_, fun t => ?_⟩ <;>
        rcases hgrad : a.requiresGrad <;> simp [hgrad, offsetAt]
    | succ n =>
      simp only [List.getElem?_cons_succ] at hp
      obtain ⟨q, hq, hg, hn, hd⟩ := ih (st + a.numel) n p hp
      refine ⟨q, by simpa [blendFrom] using hq, hg, hn, fun t => ?_⟩
      rw [hd t, offsetAt_cons,
        show st + (a.numel + offsetAt rest n) + t = st + a.numel + offsetAt rest n + t
          from by omega]

/-- Element description of the terminal replace loop. -/
theorem replaceFrom_getElem (B : ℕ → ℝ) (denom : ℝ) (ps : List TParam) :
    ∀ (st idx : ℕ) (p : TParam), ps[idx]? = some p →
      ∃ q, (replaceFrom B denom st ps)[idx]? = some q ∧
        q.requiresGrad = p.requiresGrad ∧ q.numel = p.numel ∧
        ∀ t, q.data t = if p.requiresGrad then B (st + offsetAt ps idx + t) / denom
          else p.data t := by
  induction ps with
  | nil => intro st idx p hp; simp at hp
  | cons a rest ih =>
    intro st idx p hp
    cases idx with
    | zero =>
      simp only [List.getElem?_cons_zero, Option.some.injEq] at hp
      subst hp
      refine ⟨if a.requiresGrad then { a with data := fun t => B (st + t) / denom }
        else a, by simp [replaceFrom], ?_, ?_, fun t => ?_⟩ <;>
        rcases hgrad : a.requiresGrad <;> simp [hgrad, offsetAt]
    | succ n =>
      simp only [List.getElem?_cons_succ] at hp
      obtain ⟨q, hq, hg, hn, hd⟩ := ih (st + a.numel) n p hp
      refine ⟨q, by simpa [replaceFrom] using hq, hg, hn, fun t => ?_⟩
      rw [hd t, offsetAt_cons,
        show st + (a.numel + offsetAt rest n) + t = st + a.numel + offsetAt rest n + t
          from by omega]

/-- `numer = b * 2.0 if b > 0.0 else 1.0` equals `max(2b, 1)` for a natural age. -/
theorem numer_eq_max (b : ℕ) :
    (if (0 : ℝ) < (b : ℝ) then (b : ℝ) * 2 else 1) = max (2 * (b : ℝ)) 1 := by
  rcases Nat.eq_zero_or_pos b with hb | hb
  · subst hb; norm_num
  · rw [if_pos (by exact_mod_cast hb), max_eq_left (by
      have : (1 : ℝ) ≤ (b : ℝ) := by exact_mod_cast hb
      linarith)]
    ring

/-- C4: completing a record of age `b` over a subgroup of `S` ranks updates each
trainable parameter to `alpha * param + (B / denom)[slice]` with `numer = max(2b, 1)`,
`denom = S + numer`, `alpha = numer / denom`; the terminal completion path replaces
each trainable parameter by `(B / S)[slice]` (that is, `alpha = 0`, `denom = S`). -/
theorem C4_blend_formulas (ps : List TParam) (B : ℕ → ℝ) (b S idx : ℕ) (p : TParam)
    (hp : ps[idx]? = some p) (hg : p.requiresGrad = true) :
    (∃ q, (gsRcvUpdateParams ps B b S)[idx]? = some q ∧
      ∀ t, q.data t =
        max (2 * (b : ℝ)) 1 / ((S : ℝ) + max (2 * (b : ℝ)) 1) * p.data t
          + B (offsetAt ps idx + t) / ((S : ℝ) + max (2 * (b : ℝ)) 1)) ∧
    (∃ q, (gsRcvUpdateLast ps B S)[idx]? = some q ∧
      ∀ t, q.data t = B (offsetAt ps idx + t) / (S : ℝ)) := by
  constructor
  · obtain ⟨q, hq, _, _, hd⟩ := blendFrom_getElem B
      ((if (0 : ℝ) < (b : ℝ) then (b : ℝ) * 2 else 1)
        / ((S : ℝ) + (if (0 : ℝ) < (b : ℝ) then (b : ℝ) * 2 else 1)))
      ((S : ℝ) + (if (0 : ℝ) < (b : ℝ) then (b : ℝ) * 2 else 1)) ps 0 idx p hp
    refine ⟨q, hq, fun t => ?_⟩
    rw [hd t, if_pos hg, numer_eq_max, Nat.zero_add]
  · obtain ⟨q, hq, _, _, hd⟩ := replaceFrom_getElem B ((S : ℕ) : ℝ) ps 0 idx p hp
    refine ⟨q, hq, fun t => ?_⟩
    rw [hd t, if_pos hg, Nat.zero_add]

/-- A single trainable parameter for the C4 witness. -/
def soloParam : TParam := ⟨"w", 1, fun _ => 3, true⟩

/-- Witness for C4 at a one-parameter list with `b = 2`, `S = 4`. -/
theorem C4_blend_formulas_witness :
    (∃ q, (gsRcvUpdateParams [soloParam] (fun _ => 10) 2 4)[0]? = some q ∧
      ∀ t, q.data t =
        max (2 * ((2 : ℕ) : ℝ)) 1 / (((4 : ℕ) : ℝ) + max (2 * ((2 : ℕ) : ℝ)) 1)
            * soloParam.data t
          + (fun _ : ℕ => (10 : ℝ)) (offsetAt [soloParam] 0 + t)
            / (((4 : ℕ) : ℝ) + max (2 * ((2 : ℕ) : ℝ)) 1)) ∧
    (∃ q, (gsRcvUpdateLast [soloParam] (fun _ => 10) 4)[0]? = some q ∧
      ∀ t, q.data t = (fun _ : ℕ => (10 : ℝ)) (offsetAt [soloParam] 0 + t)
        / ((4 : ℕ) : ℝ)) :=
  C4_blend_formulas [soloParam] (fun _ => 10) 2 4 0 soloParam rfl rfl

/-- A parameter list with a frozen (requires_grad = False) parameter ahead of a
trainable one: the source's shape table indexes over all parameters while packing
compacts over trainableParameters only, so the two disagree here. -/
def frozenPair : List TParam :=
  [⟨"a", 1, fun _ => 5, false⟩, ⟨"b", 1, fun _ => 7, true⟩]

/-- C5 is false as stated: with a frozen parameter of one element ahead of a
trainable parameter of one element, the allocated flat buffer has 2 elements, not the
sum 1 of trainable numels, and pack followed by unpack-with-blend (`alpha = 0`,
`denom = 1`, one rank) yields 0 for the trainable parameter instead of its original
value 7: packing wrote it at offset 0 while the layout table reads offset 1. -/
theorem C5_counterexample :
    paramSendBufferSize frozenPair ≠
      ((frozenPair.filter (fun p => p.requiresGrad)).map TParam.numel).sum ∧
    ∃ q, (gsRcvUpdateLast frozenPair (gsSendBuffer frozenPair) 1)[1]? = some q ∧
      q.data 0 ≠ (7 : ℝ) := by
  refine ⟨by decide, ⟨_, rfl, ?_⟩⟩
  show gsSendBuffer frozenPair (1 + 0) / ((1 : ℕ) : ℝ) ≠ 7
  have hbuf : gsSendBuffer frozenPair (1 + 0) = 0 := by
    show writeSlice (fun _ => 0) 0 1 (fun _ => (7 : ℝ)) (1 + 0) = 0
    unfold writeSlice
    rw [if_neg (by omega)]
  rw [hbuf]
  norm_num

/-- The running `st` of `_gs_create_param_dict` sums the numels of all parameters. -/
theorem paramSendBufferSize_eq (ps : List TParam) :
    paramSendBufferSize ps = (ps.map TParam.numel).sum := by
  suffices h : ∀ n, ps.foldl (fun st p => st + p.numel) n = n + (ps.map TParam.numel).sum by
    simpa [paramSendBufferSize] using h 0
  induction ps with
  | nil => intro n; simp
  | cons a rest ih => intro n; simp [ih]; omega

/-- Positions below the running offset are never touched by the packing loop. -/
theorem packFrom_below (ps : List TParam) :
    ∀ (buf : ℕ → ℝ) (st i : ℕ), i < st → packFrom buf st ps i = buf i := by
  induction ps with
  | nil => intro buf st i hi; rfl
  | cons a rest ih =>
    intro buf st i hi
    unfold packFrom
    split_ifs with hg
    · rw [ih _ _ _ (by omega)]
      unfold writeSlice
      rw [if_neg (by omega)]
    · exact ih _ _ _ hi

/-- When every parameter requires grad, the packing offsets agree with the layout
table: the slice at `st + offsetAt ps idx` holds parameter `idx`'s data. -/
theorem packFrom_reads (ps : List TParam) :
    ∀ (buf : ℕ → ℝ) (st idx : ℕ) (p : TParam), (∀ r ∈ ps, r.requiresGrad = true) →
      ps[idx]? = some p → ∀ t, t < p.numel →
        packFrom buf st ps (st + offsetAt ps idx + t) = p.data t := by
  induction ps with
  | nil => intro buf st idx p _ hp; simp at hp
  | cons a rest ih =>
    intro buf st idx p hall hp t ht
    have hga : a.requiresGrad = true := hall a (by simp)
    cases idx with
    | zero =>
      simp only [List.getElem?_cons_zero, Option.some.injEq] at hp
      subst hp
      unfold packFrom
      rw [if_pos hga]
      rw [packFrom_below rest _ _ _ (by simp [offsetAt]; omega)]
      unfold writeSlice
      rw [if_pos (by simp [offsetAt]; omega)]
      congr 1
      simp [offsetAt]
    | succ n =>
      simp only [List.getElem?_cons_succ] at hp
      unfold packFrom
      rw [if_pos hga]
      have hidx : st + offsetAt (a :: rest) (n + 1) + t
          = (st + a.numel) + offsetAt rest n + t := by
        rw [offsetAt_cons]; omega
      rw [hidx]
      exact ih _ _ _ _ (fun r hr => hall r (by simp [hr])) hp t ht

/-- C5 amended: the allocated flat buffer's size is the sum of `numel` over ALL named
parameters (the layout table of `_gs_create_param_dict` does not filter by
`requires_grad`), and when every parameter requires grad, pack followed by
unpack-with-blend with `alpha = 0`, `denom = 1` on a single subgroup rank restores
every parameter's data exactly. -/
theorem C5_pack_roundtrip (ps : List TParam) (hall : ∀ p ∈ ps, p.requiresGrad = true) :
    paramSendBufferSize ps = (ps.map TParam.numel).sum ∧
    ∀ (idx : ℕ) (p : TParam), ps[idx]? = some p →
      ∃ q, (gsRcvUpdateLast ps (gsSendBuffer ps) 1)[idx]? = some q ∧
        ∀ t, t < p.numel → q.data t = p.data t := by
  refine ⟨paramSendBufferSize_eq ps, fun idx p hp => ?_⟩
  obtain ⟨q, hq, _, _, hd⟩ := replaceFrom_getElem (gsSendBuffer ps) ((1 : ℕ) : ℝ) ps 0 idx p hp
  refine ⟨q, hq, fun t ht => ?_⟩
  rw [hd t, if_pos (hall p (List.getElem?_mem hp) : p.requiresGrad = true)]
  rw [Nat.zero_add, Nat.cast_one, div_one]
  have hread := packFrom_reads ps (fun _ => 0) 0 idx p hall hp t ht
  simpa [gsSendBuffer] using hread

/-- Two trainable parameters for the C5 witness. -/
def trainablePair : List TParam :=
  [⟨"a", 2, fun t => (t : ℝ) + 1, true⟩, ⟨"b", 1, fun _ => 9, true⟩]

/-- Witness for the amended C5 at a concrete all-trainable parameter list. -/
theorem C5_pack_roundtrip_witness :
    paramSendBufferSize trainablePair = (trainablePair.map TParam.numel).sum ∧
    ∀ (idx : ℕ) (p : TParam), trainablePair[idx]? = some p →
      ∃ q, (gsRcvUpdateLast trainablePair (gsSendBuffer trainablePair) 1)[idx]? = some q ∧
        ∀ t, t < p.numel → q.data t = p.data t :=
  C5_pack_roundtrip trainablePair (by decide)

/-- Python `%` is the identity on residues. -/
theorem pymod_of_lt (s P : ℕ) (h : s < P) : pymod (s : ℤ) P = s := by
  unfold pymod
  rw [Int.emod_eq_of_lt (by positivity) (by exact_mod_cast h)]
  simp

/-- Python `%` wraps one negative period up into `[0, P)`. -/
theorem pymod_cast (s P : ℕ) (h : s < P) : pymod ((s : ℤ) - (P : ℤ)) P = s := by
  unfold pymod
  rw [Int.sub_emod, Int.emod_self, sub_zero, Int.emod_emod_of_dvd _ dvd_rfl,
    Int.emod_eq_of_lt (by positivity) (by exact_mod_cast h)]
  simp

/-- For an even group size the loop bound `(size + 1) // 2` is the antipodal gap. -/
theorem numIter_even (P : ℕ) (h : P % 2 = 0) : numIter P = P / 2 := by
  unfold numIter; omega

/-- C7: the extra (antipodal) iteration of the ring engine executes exactly when the
group size is even (the source guard `(size + 1) % 2 != 0` holds iff `P % 2 == 0`);
in it a rank `r < P/2` only probes/receives the moving block of the antipodal peer
`r + P/2` on tag `num_iter = P/2`, writes the computed tile on that peer's columns and
sends it back, while a rank `r ≥ P/2` only sends its stationary block to peer
`r - P/2` and receives that tile, writing its transpose on the peer's columns; for odd
group sizes no extra iteration runs. -/
theorem C7_antipodal_tail (P r : ℕ) (hP : 0 < P) (hr : r < P) :
    ((P + 1) % 2 ≠ 0 ↔ P % 2 = 0) ∧
    (P % 2 = 1 → tailEvents P r = [] ∧
      ∀ (N : ℕ) (displ : ℕ → ℕ) (k : (ℕ → ℝ) → (ℕ → ℝ) → ℝ) (X : ℕ → ℕ → ℝ),
        tailProgram P N displ k X r = []) ∧
    (P % 2 = 0 →
      (r < P / 2 →
        tailEvents P r = [Ev.probe (r + P / 2) (P / 2), Ev.recv (r + P / 2) (P / 2),
          Ev.send (r + P / 2) (P / 2)] ∧
        ∀ (N : ℕ) (displ : ℕ → ℕ) (k : (ℕ → ℝ) → (ℕ → ℝ) → ℝ) (X : ℕ → ℕ → ℝ),
          tailProgram P N displ k X r =
            [⟨displ r, rowEnd P N displ r, displ (r + P / 2), colEnd P N displ (r + P / 2),
              metricTile k (blockT displ X r) (blockT displ X (r + P / 2))⟩]) ∧
      (P / 2 ≤ r →
        tailEvents P r = [Ev.send (r - P / 2) (P / 2), Ev.recv (r - P / 2) (P / 2)] ∧
        ∀ (N : ℕ) (displ : ℕ → ℕ) (k : (ℕ → ℝ) → (ℕ → ℝ) → ℝ) (X : ℕ → ℕ → ℝ),
          tailProgram P N displ k X r =
            [⟨displ r, rowEnd P N displ r, displ (r - P / 2), colEnd P N displ (r - P / 2),
              fun a b =>
                metricTile k (blockT displ X (r - P / 2)) (blockT displ X r) b a⟩])) := by
  refine ⟨by omega, fun hodd => ?_, fun heven => ⟨fun hlt => ?_, fun hge => ?_⟩⟩
  · have hguard : ¬ ((P + 1) % 2 ≠ 0) := by omega
    exact ⟨by rw [tailEvents, if_neg hguard],
      fun N displ k X => by rw [tailProgram, if_neg hguard]⟩
  · have hguard : (P + 1) % 2 ≠ 0 := by omega
    have hnum := numIter_even P heven
    have hsend : pymod ((r : ℤ) - (numIter P : ℤ)) P = r + P / 2 := by
      rw [hnum]
      have hhalf : P / 2 + P / 2 = P := by omega
      have hcast : (r : ℤ) - ((P / 2 : ℕ) : ℤ) = ((r + P / 2 : ℕ) : ℤ) - (P : ℤ) := by
        push_cast
        omega
      rw [hcast]
      exact pymod_cast _ _ (by omega)
    refine ⟨?_, fun N displ k X => ?_⟩
    · rw [tailEvents, if_pos hguard, if_pos hlt, hsend, hnum]
    · rw [tailProgram, if_pos hguard, if_pos hlt]
      simp only [directWrite, hsend]
  · have hguard : (P + 1) % 2 ≠ 0 := by omega
    have hnum := numIter_even P heven
    have hlt' : ¬ r < P / 2 := by omega
    have hrecv : (r + numIter P) % P = r - P / 2 := by
      rw [hnum, show r + P / 2 = (r - P / 2) + P from by omega, Nat.add_mod_right,
        Nat.mod_eq_of_lt (by omega)]
    refine ⟨?_, fun N displ k X => ?_⟩
    · rw [tailEvents, if_pos hguard, if_neg hlt', hrecv, hnum]
    · rw [tailProgram, if_pos hguard, if_neg hlt']
      simp only [mirrorWrite, hrecv]

/-- Witness for C7 at the concrete even group size P = 2, rank r = 1. -/
theorem C7_antipodal_tail_witness :
    ((2 + 1) % 2 ≠ 0 ↔ 2 % 2 = 0) ∧
    (2 % 2 = 1 → tailEvents 2 1 = [] ∧
      ∀ (N : ℕ) (displ : ℕ → ℕ) (k : (ℕ → ℝ) → (ℕ → ℝ) → ℝ) (X : ℕ → ℕ → ℝ),
        tailProgram 2 N displ k X 1 = []) ∧
    (2 % 2 = 0 →
      (1 < 2 / 2 →
        tailEvents 2 1 = [Ev.probe (1 + 2 / 2) (2 / 2), Ev.recv (1 + 2 / 2) (2 / 2),
          Ev.send (1 + 2 / 2) (2 / 2)] ∧
        ∀ (N : ℕ) (displ : ℕ → ℕ) (k : (ℕ → ℝ) → (ℕ → ℝ) → ℝ) (X : ℕ → ℕ → ℝ),
          tailProgram 2 N displ k X 1 =
            [⟨displ 1, rowEnd 2 N displ 1, displ (1 + 2 / 2), colEnd 2 N displ (1 + 2 / 2),
              metricTile k (blockT displ X 1) (blockT displ X (1 + 2 / 2))⟩]) ∧
      (2 / 2 ≤ 1 →
        tailEvents 2 1 = [Ev.send (1 - 2 / 2) (2 / 2), Ev.recv (1 - 2 / 2) (2 / 2)] ∧
        ∀ (N : ℕ) (displ : ℕ → ℕ) (k : (ℕ → ℝ) → (ℕ → ℝ) → ℝ) (X : ℕ → ℕ → ℝ),
          tailProgram 2 N displ k X 1 =
            [⟨displ 1, rowEnd 2 N displ 1, displ (1 - 2 / 2), colEnd 2 N displ (1 - 2 / 2),
              fun a b =>
                metricTile k (blockT displ X (1 - 2 / 2)) (blockT displ X 1) b a⟩])) :=
  C7_antipodal_tail 2 1 (by decide) (by decide)

/-- Entries not covered by any write in a list are untouched by the fold. -/
theorem foldl_applyWrite_untouched (ws : List TileWrite) :
    ∀ (st : SimState) (i j : ℕ), (∀ w ∈ ws, ¬ w.covers i j) →
      (ws.foldl applyWrite st).val i j = st.val i j ∧
      (ws.foldl applyWrite st).written i j = st.written i j := by
  induction ws with
  | nil => intro st i j _; exact ⟨rfl, rfl⟩
  | cons w rest ih =>
    intro st i j h
    have hw : ¬ w.covers i j := h w (by simp)
    have hrest := ih (applyWrite st w) i j (fun u hu => h u (by simp [hu]))
    simp only [List.foldl_cons]
    exact ⟨by rw [hrest.1]; simp [applyWrite, hw],
           by rw [hrest.2]; simp [applyWrite, hw]⟩

/-- A fold of writes that all agree with value `v` at `(i, j)` keeps an established
value `v` there. -/
theorem foldl_applyWrite_keeps (ws : List TileWrite) :
    ∀ (st : SimState) (i j : ℕ) (v : ℝ),
      (∀ w ∈ ws, w.covers i j → w.f (i - w.r1) (j - w.c1) = v) →
      st.val i j = v → st.written i j = true →
      (ws.foldl applyWrite st).val i j = v ∧
      (ws.foldl applyWrite st).written i j = true := by
  induction ws with
  | nil => intro st i j v _ hv hw; exact ⟨hv, hw⟩
  | cons w rest ih =>
    intro st i j v h hv hw
    simp only [List.foldl_cons]
    refine ih (applyWrite st w) i j v (fun u hu => h u (by simp [hu])) ?_ ?_
    · by_cases hc : w.covers i j
      · simp [applyWrite, hc, h w (by simp) hc]
      · simp [applyWrite, hc, hv]
    · by_cases hc : w.covers i j <;> simp [applyWrite, hc, hw]

/-- A fold of writes that all agree with value `v` at `(i, j)`, at least one of which
covers `(i, j)`, leaves `(i, j)` written with value `v`. -/
theorem foldl_applyWrite_sets (ws : List TileWrite) :
    ∀ (st : SimState) (i j : ℕ) (v : ℝ),
      (∀ w ∈ ws, w.covers i j → w.f (i - w.r1) (j - w.c1) = v) →
      (∃ w ∈ ws, w.covers i j) →
      (ws.foldl applyWrite st).val i j = v ∧
      (ws.foldl applyWrite st).written i j = true := by
  induction ws with
  | nil => intro st i j v _ hex; simp at hex
  | cons w rest ih =>
    intro st i j v h hex
    simp only [List.foldl_cons]
    by_cases hc : w.covers i j
    · refine foldl_applyWrite_keeps rest (applyWrite st w) i j v
        (fun u hu => h u (by simp [hu])) ?_ ?_
      · simp [applyWrite, hc, h w (by simp) hc]
      · simp [applyWrite, hc]
    · refine ih (applyWrite st w) i j v (fun u hu => h u (by simp [hu])) ?_
      rcases hex with ⟨u, hu, hcov⟩
      rcases List.mem_cons.mp hu with rfl | hmem
      · exact absurd hcov hc
      · exact ⟨u, hmem, hcov⟩

/-- A fold of per-rank folds is the fold of the concatenated program. -/
theorem foldl_flatMap_applyWrite (l : List ℕ) (g : ℕ → List TileWrite) :
    ∀ st : SimState,
      (l.flatMap g).foldl applyWrite st
        = l.foldl (fun s r => (g r).foldl applyWrite s) st := by
  induction l with
  | nil => intro st; rfl
  | cons a rest ih => intro st; simp [List.flatMap_cons, List.foldl_append, ih]

/-- The row-band end and the column-band end coincide for every actual rank: the two
guards `(rank + 1) != size` and `sender != size - 1` agree below `P`. -/
theorem rowEnd_eq_colEnd (P N : ℕ) (displ : ℕ → ℕ) (r : ℕ) (hr : r < P) :
    rowEnd P N displ r = colEnd P N displ r := by
  unfold rowEnd colEnd
  split_ifs <;> first | rfl | omega

/-- Every global index below `N` lies in the band of some rank: the displacements
start at 0, grow monotonically, and the last band ends at `N`. -/
theorem owner_exists (P N : ℕ) (displ : ℕ → ℕ) (hP : 0 < P) (hd0 : displ 0 = 0)
    (hmono : ∀ t, t + 1 < P → displ t ≤ displ (t + 1)) (j : ℕ) (hj : j < N) :
    ∃ s, s < P ∧ displ s ≤ j ∧ j < colEnd P N displ s := by
  have key : ∀ fuel s, s < P → displ s ≤ j → P - 1 - s ≤ fuel →
      ∃ u, u < P ∧ displ u ≤ j ∧ j < colEnd P N displ u := by
    intro fuel
    induction fuel with
    | zero =>
      intro s hs hle hf
      refine ⟨s, hs, hle, ?_⟩
      unfold colEnd
      rw [if_neg (by omega)]
      exact hj
    | succ n ih =>
      intro s hs hle hf
      by_cases hend : j < colEnd P N displ s
      · exact ⟨s, hs, hle, hend⟩
      · have hsne : s ≠ P - 1 := by
          intro hcon
          unfold colEnd at hend
          rw [if_neg (by omega)] at hend
          exact hend hj
        have hnext : displ (s + 1) ≤ j := by
          unfold colEnd at hend
          rw [if_pos hsne] at hend
          omega
        exact ih (s + 1) (by omega) hnext (by omega)
  exact key (P - 1) 0 hP (by rw [hd0]; exact Nat.zero_le j) (by omega)

/-- Every tile assignment in a rank's program writes, at every entry it covers, the
kernel of the two global rows (the mirror writes via the kernel's symmetry). -/
theorem rankProgram_value (P N : ℕ) (displ : ℕ → ℕ) (k : (ℕ → ℝ) → (ℕ → ℝ) → ℝ)
    (X : ℕ → ℕ → ℝ) (hk : ∀ x y, k x y = k y x) (r i j : ℕ) :
    ∀ w ∈ rankProgram P N displ k X r, w.covers i j →
      w.f (i - w.r1) (j - w.c1) = k (X i) (X j) := by
  have hdir : ∀ i0, (directWrite P N displ k X r i0).covers i j →
      (directWrite P N displ k X r i0).f (i - (directWrite P N displ k X r i0).r1)
        (j - (directWrite P N displ k X r i0).c1) = k (X i) (X j) := by
    intro i0 hcov
    obtain ⟨h1, _, h3, _⟩ := hcov
    have h1' : displ r ≤ i := h1
    have h3' : displ (pymod ((r : ℤ) - (i0 : ℤ)) P) ≤ j := h3
    show k (X (displ r + (i - displ r)))
      (X (displ (pymod ((r : ℤ) - (i0 : ℤ)) P) + (j - displ (pymod ((r : ℤ) - (i0 : ℤ)) P))))
      = k (X i) (X j)
    rw [Nat.add_sub_cancel' h1', Nat.add_sub_cancel' h3']
  have hmir : ∀ i0, (mirrorWrite P N displ k X r i0).covers i j →
      (mirrorWrite P N displ k X r i0).f (i - (mirrorWrite P N displ k X r i0).r1)
        (j - (mirrorWrite P N displ k X r i0).c1) = k (X i) (X j) := by
    intro i0 hcov
    obtain ⟨h1, _, h3, _⟩ := hcov
    have h1' : displ r ≤ i := h1
    have h3' : displ ((r + i0) % P) ≤ j := h3
    show k (X (displ ((r + i0) % P) + (j - displ ((r + i0) % P))))
      (X (displ r + (i - displ r))) = k (X i) (X j)
    rw [Nat.add_sub_cancel' h1', Nat.add_sub_cancel' h3', hk]
  intro w hw hcov
  unfold rankProgram at hw
  rcases List.mem_cons.mp hw with rfl | hw'
  · obtain ⟨h1, _, h3, _⟩ := hcov
    have h1' : displ r ≤ i := h1
    have h3' : displ r ≤ j := h3
    show k (X (displ r + (i - displ r))) (X (displ r + (j - displ r))) = k (X i) (X j)
    rw [Nat.add_sub_cancel' h1', Nat.add_sub_cancel' h3']
  rcases List.mem_append.mp hw' with hmain | htail
  · obtain ⟨i0, _, hw2⟩ := List.mem_flatMap.mp hmain
    simp only [List.mem_cons, List.mem_singleton, List.not_mem_nil, or_false] at hw2
    rcases hw2 with rfl | rfl
    · exact hdir i0 hcov
    · exact hmir i0 hcov
  · unfold tailProgram at htail
    split_ifs at htail
    · simp only [List.mem_singleton] at htail
      subst htail
      exact hdir _ hcov
    · simp only [List.mem_singleton] at htail
      subst htail
      exact hmir _ hcov
    · simp at htail

/-- Coverage: when `(i, j)` lies in the row band of rank `r` and the column band of
rank `s`, some tile assignment of rank `r`'s program covers it (the diagonal, a direct
or mirror write of the main loop, or the antipodal tail when `P` is even). -/
theorem rankProgram_covers (P N : ℕ) (displ : ℕ → ℕ) (k : (ℕ → ℝ) → (ℕ → ℝ) → ℝ)
    (X : ℕ → ℕ → ℝ) (hP : 0 < P) (r s : ℕ) (hrP : r < P) (hsP : s < P) (i j : ℕ)
    (hi1 : displ r ≤ i) (hi2 : i < rowEnd P N displ r)
    (hj1 : displ s ≤ j) (hj2 : j < colEnd P N displ s) :
    ∃ w ∈ rankProgram P N displ k X r, w.covers i j := by
  have hm2 : 2 * numIter P = P ∨ 2 * numIter P = P + 1 := by unfold numIter; omega
  have hm1 : 1 ≤ numIter P := by unfold numIter; omega
  rcases Nat.lt_trichotomy r s with hrs | rfl | hsr
  · -- r < s
    by_cases hgap : s - r < numIter P
    · -- mirror write of the main loop at iteration s - r
      refine ⟨mirrorWrite P N displ k X r (s - r), ?_, ?_⟩
      · unfold rankProgram
        refine List.mem_cons_of_mem _ (List.mem_append_left _ ?_)
        refine List.mem_flatMap.mpr ⟨s - r, ?_, by simp⟩
        rw [List.mem_range'_1]
        omega
      · have hrec : (r + (s - r)) % P = s := by
          rw [Nat.add_sub_cancel' (le_of_lt hrs), Nat.mod_eq_of_lt hsP]
        refine ⟨hi1, hi2, ?_, ?_⟩
        · show displ ((r + (s - r)) % P) ≤ j
          rw [hrec]; exact hj1
        · show j < colEnd P N displ ((r + (s - r)) % P)
          rw [hrec]; exact hj2
    · by_cases hgap2 : P - (s - r) < numIter P
      · -- direct write of the main loop at iteration P - (s - r)
        refine ⟨directWrite P N displ k X r (P - (s - r)), ?_, ?_⟩
        · unfold rankProgram
          refine List.mem_cons_of_mem _ (List.mem_append_left _ ?_)
          refine List.mem_flatMap.mpr ⟨P - (s - r), ?_, by simp⟩
          rw [List.mem_range'_1]
          omega
        · have hsend : pymod ((r : ℤ) - ((P - (s - r) : ℕ) : ℤ)) P = s := by
            have hcast : (r : ℤ) - ((P - (s - r) : ℕ) : ℤ) = ((s : ℕ) : ℤ) - (P : ℤ) := by
              push_cast [show s - r ≤ P from by omega]
              omega
            rw [hcast]
            exact pymod_cast _ _ hsP
          refine ⟨hi1, hi2, ?_, ?_⟩
          · show displ (pymod ((r : ℤ) - ((P - (s - r) : ℕ) : ℤ)) P) ≤ j
            rw [hsend]; exact hj1
          · show j < colEnd P N displ (pymod ((r : ℤ) - ((P - (s - r) : ℕ) : ℤ)) P)
            rw [hsend]; exact hj2
      · -- antipodal tail, r < P / 2, even P
        have heven : 2 * numIter P = P := by omega
        have hdelta : s - r = numIter P := by omega
        have hhalf : numIter P = P / 2 := by omega
        have hrlt : r < P / 2 := by omega
        refine ⟨directWrite P N displ k X r (numIter P), ?_, ?_⟩
        · unfold rankProgram
          refine List.mem_cons_of_mem _ (List.mem_append_right _ ?_)
          unfold tailProgram
          rw [if_pos (by omega), if_pos hrlt]
          simp
        · have hsend : pymod ((r : ℤ) - ((numIter P : ℕ) : ℤ)) P = s := by
            have hcast : (r : ℤ) - ((numIter P : ℕ) : ℤ) = ((s : ℕ) : ℤ) - (P : ℤ) := by
              push_cast
              omega
            rw [hcast]
            exact pymod_cast _ _ hsP
          refine ⟨hi1, hi2, ?_, ?_⟩
          · show displ (pymod ((r : ℤ) - ((numIter P : ℕ) : ℤ)) P) ≤ j
            rw [hsend]; exact hj1
          · show j < colEnd P N displ (pymod ((r : ℤ) - ((numIter P : ℕ) : ℤ)) P)
            rw [hsend]; exact hj2
  · -- the diagonal tile
    refine ⟨diagWrite P N displ k X r, ?_, ?_⟩
    · unfold rankProgram
      exact List.mem_cons_self _ _
    · refine ⟨hi1, hi2, hj1, ?_⟩
      show j < rowEnd P N displ r
      rw [rowEnd_eq_colEnd P N displ r hrP]
      exact hj2
  · -- s < r
    by_cases hgap : r - s < numIter P
    · -- direct write of the main loop at iteration r - s
      refine ⟨directWrite P N displ k X r (r - s), ?_, ?_⟩
      · unfold rankProgram
        refine List.mem_cons_of_mem _ (List.mem_append_left _ ?_)
        refine List.mem_flatMap.mpr ⟨r - s, ?_, by simp⟩
        rw [List.mem_range'_1]
        omega
      · have hsend : pymod ((r : ℤ) - ((r - s : ℕ) : ℤ)) P = s := by
          have hcast : (r : ℤ) - ((r - s : ℕ) : ℤ) = ((s : ℕ) : ℤ) := by
            push_cast [show s ≤ r from by omega]
            omega
          rw [hcast]
          exact pymod_of_lt _ _ hsP
        refine ⟨hi1, hi2, ?_, ?_⟩
        · show displ (pymod ((r : ℤ) - ((r - s : ℕ) : ℤ)) P) ≤ j
          rw [hsend]; exact hj1
        · show j < colEnd P N displ (pymod ((r : ℤ) - ((r - s : ℕ) : ℤ)) P)
          rw [hsend]; exact hj2
    · by_cases hgap2 : P - (r - s) < numIter P
      · -- mirror write of the main loop at iteration P - (r - s)
        refine ⟨mirrorWrite P N displ k X r (P - (r - s)), ?_, ?_⟩
        · unfold rankProgram
          refine List.mem_cons_of_mem _ (List.mem_append_left _ ?_)
          refine List.mem_flatMap.mpr ⟨P - (r - s), ?_, by simp⟩
          rw [List.mem_range'_1]
          omega
        · have hrec : (r + (P - (r - s))) % P = s := by
            rw [show r + (P - (r - s)) = s + P from by omega, Nat.add_mod_right,
              Nat.mod_eq_of_lt hsP]
          refine ⟨hi1, hi2, ?_, ?_⟩
          · show displ ((r + (P - (r - s))) % P) ≤ j
            rw [hrec]; exact hj1
          · show j < colEnd P N displ ((r + (P - (r - s))) % P)
            rw [hrec]; exact hj2
      · -- antipodal tail, r ≥ P / 2, even P
        have heven : 2 * numIter P = P := by omega
        have hdelta : r - s = numIter P := by omega
        have hrge : ¬ r < P / 2 := by omega
        refine ⟨mirrorWrite P N displ k X r (numIter P), ?_, ?_⟩
        · unfold rankProgram
          refine List.mem_cons_of_mem _ (List.mem_append_right _ ?_)
          unfold tailProgram
          rw [if_pos (by omega), if_neg hrge]
          simp
        · have hrec : (r + numIter P) % P = s := by
            rw [show r + numIter P = s + P from by omega, Nat.add_mod_right,
              Nat.mod_eq_of_lt hsP]
          refine ⟨hi1, hi2, ?_, ?_⟩
          · show displ ((r + numIter P) % P) ≤ j
            rw [hrec]; exact hj1
          · show j < colEnd P N displ ((r + numIter P) % P)
            rw [hrec]; exact hj2

/-- Entry-wise description of the completed similarity matrix: for every valid
partition and symmetric row kernel, every entry below the global bounds is written and
holds the kernel of its two global rows. -/
theorem ringResult_entries (P N : ℕ) (displ : ℕ → ℕ) (k : (ℕ → ℝ) → (ℕ → ℝ) → ℝ)
    (X : ℕ → ℕ → ℝ) (hP : 0 < P) (hd0 : displ 0 = 0)
    (hmono : ∀ t, t + 1 < P → displ t ≤ displ (t + 1))
    (hk : ∀ x y, k x y = k y x) (i j : ℕ) (hi : i < N) (hj : j < N) :
    (ringResult P N displ k X).written i j = true ∧
    (ringResult P N displ k X).val i j = k (X i) (X j) := by
  obtain ⟨r, hrP, hri1, hri2⟩ := owner_exists P N displ hP hd0 hmono i hi
  obtain ⟨s, hsP, hsj1, hsj2⟩ := owner_exists P N displ hP hd0 hmono j hj
  have hri2' : i < rowEnd P N displ r := by
    rw [rowEnd_eq_colEnd P N displ r hrP]; exact hri2
  have heq : ringResult P N displ k X
      = ((List.range P).flatMap (rankProgram P N displ k X)).foldl applyWrite
          initSimState := by
    unfold ringResult rankWrites
    rw [foldl_flatMap_applyWrite]
  rw [heq]
  have hval : ∀ w ∈ (List.range P).flatMap (rankProgram P N displ k X),
      w.covers i j → w.f (i - w.r1) (j - w.c1) = k (X i) (X j) := by
    intro w hw hc
    obtain ⟨r2, _, hw2⟩ := List.mem_flatMap.mp hw
    exact rankProgram_value P N displ k X hk r2 i j w hw2 hc
  have hex : ∃ w ∈ (List.range P).flatMap (rankProgram P N displ k X),
      w.covers i j := by
    obtain ⟨w, hwmem, hcov⟩ := rankProgram_covers P N displ k X hP r s hrP hsP i j
      hri1 hri2' hsj1 hsj2
    exact ⟨w, List.mem_flatMap.mpr ⟨r, List.mem_range.mpr hrP, hwmem⟩, hcov⟩
  have := foldl_applyWrite_sets _ initSimState i j _ hval hex
  exact ⟨this.2, this.1⟩

/-- The row kernel of `EuclidianDistance` on `F` features. -/
noncomputable def euclidKernel (F : ℕ) (x y : ℕ → ℝ) : ℝ :=
  Real.sqrt (∑ d ∈ Finset.range F, (y d - x d) ^ 2)

/-- The Euclidean row kernel is symmetric. -/
theorem euclidKernel_symm (F : ℕ) : ∀ x y, euclidKernel F x y = euclidKernel F y x := by
  intro x y
  unfold euclidKernel
  congr 1
  exact Finset.sum_congr rfl fun d _ => by ring

/-- C1: for every group size `P ≥ 1`, every partition with monotone displacements
starting at 0, and every symmetric row kernel (both supplied metrics qualify), the
completed similarity matrix is fully populated and symmetric:
`S[i, j] = S[j, i]` for all global indices, and every entry has been written. -/
theorem C1_similarity_symmetric_total (P N : ℕ) (displ : ℕ → ℕ)
    (k : (ℕ → ℝ) → (ℕ → ℝ) → ℝ) (X : ℕ → ℕ → ℝ) (hP : 0 < P) (hd0 : displ 0 = 0)
    (hmono : ∀ t, t + 1 < P → displ t ≤ displ (t + 1))
    (hk : ∀ x y, k x y = k y x) (i j : ℕ) (hi : i < N) (hj : j < N) :
    (ringResult P N displ k X).written i j = true ∧
    (ringResult P N displ k X).val i j = (ringResult P N displ k X).val j i := by
  obtain ⟨hw1, hv1⟩ := ringResult_entries P N displ k X hP hd0 hmono hk i j hi hj
  obtain ⟨_, hv2⟩ := ringResult_entries P N displ k X hP hd0 hmono hk j i hj hi
  exact ⟨hw1, by rw [hv1, hv2, hk]⟩

/-- Witness for C1: two ranks, a 2 × 1 global matrix with one row per rank, the
Euclidean row kernel. -/
theorem C1_similarity_symmetric_total_witness :
    (ringResult 2 2 (fun r => r) (euclidKernel 1) (fun _ _ => 0)).written 0 1 = true ∧
    (ringResult 2 2 (fun r => r) (euclidKernel 1) (fun _ _ => 0)).val 0 1 =
      (ringResult 2 2 (fun r => r) (euclidKernel 1) (fun _ _ => 0)).val 1 0 :=
  C1_similarity_symmetric_total 2 2 (fun r => r) (euclidKernel 1) (fun _ _ => 0)
    (by decide) rfl (fun t _ => Nat.le_succ t) (euclidKernel_symm 1) 0 1 (by decide) (by decide)

theorem dasoRcvUpdate_eq_self (s : DasoState)
    (h : s.sendModM1 ≠ some (s.rank % s.locGpus) ∨ s.prevParams = []) :
    dasoRcvUpdate s = s := by
  unfold dasoRcvUpdate
  split
  · rfl
  · rename_i m1 hm
    rw [if_neg]
    rintro ⟨hc1, hc2⟩
    rcases h with h | h
    · exact h (by rw [hm, hc1])
    · exact hc2 h

theorem dasoRcvUpdate_pop (s : DasoState)
    (h1 : s.sendModM1 = some (s.rank % s.locGpus)) (h2 : s.prevParams ≠ []) :
    dasoRcvUpdate s = { s with prevParams := s.prevParams.tail } := by
  unfold dasoRcvUpdate
  split
  · rename_i hm
    rw [hm] at h1
    exact absurd h1 (by simp)
  · rename_i m1 hm
    have hm1 : m1 = s.rank % s.locGpus := by
      rw [hm] at h1
      exact Option.some.inj h1
    subst hm1
    rw [if_pos ⟨rfl, h2⟩]

theorem tail_eq_nil_of_len_le_one (q : List ℕ) (h : q.length ≤ 1) : q.tail = [] := by
  cases q with
  | nil => rfl
  | cons a t => simp at h; simp [h]

theorem rotateMod_lt (cur L : ℕ) (hL : 2 ≤ L) : rotateMod cur L < L := by
  unfold rotateMod; split_ifs <;> omega

theorem rotateMod_ne (cur L : ℕ) (hL : 2 ≤ L) : cur ≠ rotateMod cur L := by
  unfold rotateMod; split_ifs <;> omega

theorem dasoRcvLast_single (s : DasoState) (a : ℕ) (h : s.prevParams = [a]) :
    dasoRcvLast s = some { s with prevParams := [] } := by
  unfold dasoRcvLast
  rw [h]
  rfl

/-- Reduction of the terminal stage once its receive part is resolved. -/
theorem syncFinish_of_some (s t : DasoState) (cur : ℕ)
    (h : (if s.rank % s.locGpus = cur then dasoRcvLast s
          else if s.prevParams ≠ [] then none else some s) = some t) :
    syncFinish s cur =
      (if t.currentBatch = t.lastBatch then
        some { t with sendModM1 := none, sendMod := 0, epoch := t.epoch + 1,
                      currentBatch := 0 }
      else
        some { t with sendModM1 := none, currentBatch := t.currentBatch + 1,
                      sendMod := rotateMod cur t.locGpus }) := by
  unfold syncFinish
  rw [h]

/-- `_global_sync` succeeds from an invariant state and preserves the invariant. -/
theorem dasoGlobalSync_inv (s : DasoState) (btw : ℕ) (hinv : DasoInv s) :
    ∃ s2, dasoGlobalSync s btw = some s2 ∧ DasoInv s2 := by
  obtain ⟨hb, hsm, hlen, hqm, hm1ne, hL⟩ := hinv
  unfold dasoGlobalSync
  by_cases hcur : s.rank % s.locGpus = s.sendMod
  · -- this rank posts a record
    have hq0 : s.prevParams = [] := by
      by_contra hne
      exact hm1ne (hcur ▸ (hqm hne).1)
    have hpost : syncPost s btw = { s with prevParams := [btw] } := by
      unfold syncPost
      rw [if_pos hcur, hq0]
      rfl
    have hmid : syncMid { s with prevParams := [btw] }
        = { s with prevParams := [btw] } := by
      unfold syncMid
      split_ifs with hw
      · exact dasoRcvUpdate_eq_self _ (Or.inl (by
          show s.sendModM1 ≠ some (s.rank % s.locGpus)
          rw [hcur]; exact hm1ne))
      · rfl
    rw [hpost, hmid]
    by_cases hearly : s.currentBatch ≠ s.lastBatch ∧ s.batchesToWait ≠ 0
    · rw [if_pos (show ({ s with prevParams := [btw] } : DasoState).currentBatch ≠
          ({ s with prevParams := [btw] } : DasoState).lastBatch ∧
          ({ s with prevParams := [btw] } : DasoState).batchesToWait ≠ 0 from hearly)]
      refine ⟨_, rfl, ?_, ?_, ?_, ?_, ?_, hL⟩
      · show s.currentBatch + 1 ≤ s.lastBatch
        exact Nat.succ_le_of_lt (lt_of_le_of_ne hb hearly.1)
      · exact rotateMod_lt _ _ hL
      · show ([btw] : List ℕ).length ≤ 1
        simp
      · intro _
        exact ⟨by rw [hcur], hearly.2⟩
      · show some s.sendMod ≠ some (rotateMod s.sendMod s.locGpus)
        simp only [ne_eq, Option.some.injEq]
        exact rotateMod_ne _ _ hL
    · rw [if_neg (show ¬ (({ s with prevParams := [btw] } : DasoState).currentBatch ≠
          ({ s with prevParams := [btw] } : DasoState).lastBatch ∧
          ({ s with prevParams := [btw] } : DasoState).batchesToWait ≠ 0) from hearly)]
      rw [syncFinish_of_some ({ s with prevParams := [btw] })
        ({ s with prevParams := ([] : List ℕ) }) s.sendMod (by
          rw [if_pos (show ({ s with prevParams := [btw] } : DasoState).rank %
            ({ s with prevParams := [btw] } : DasoState).locGpus = s.sendMod from hcur)]
          exact dasoRcvLast_single _ btw rfl)]
      by_cases hlastb : s.currentBatch = s.lastBatch
      · rw [if_pos (show _ from hlastb)]
        refine ⟨_, rfl, Nat.zero_le _, (show (0 : ℕ) < s.locGpus by omega),
          by simp, by simp, by simp, hL⟩
      · rw [if_neg (show _ from hlastb)]
        refine ⟨_, rfl, ?_, rotateMod_lt _ _ hL, by simp, by simp, by simp, hL⟩
        show s.currentBatch + 1 ≤ s.lastBatch
        exact Nat.succ_le_of_lt (lt_of_le_of_ne hb hlastb)
  · -- this rank does not post
    have hpost : syncPost s btw = s := by
      unfold syncPost
      rw [if_neg hcur]
    have hmid : syncMid s = { s with prevParams := [] } := by
      unfold syncMid
      split_ifs with hw
      · by_cases hq : s.prevParams = []
        · rw [dasoRcvUpdate_eq_self _ (Or.inr hq), ← hq]
        · rw [dasoRcvUpdate_pop s (hqm hq).1 hq,
            tail_eq_nil_of_len_le_one _ hlen]
      · have hq : s.prevParams = [] := by
          by_contra hne
          exact hw (hqm hne).2
        rw [← hq]
    rw [hpost, hmid]
    by_cases hearly : s.currentBatch ≠ s.lastBatch ∧ s.batchesToWait ≠ 0
    · rw [if_pos (show ({ s with prevParams := ([] : List ℕ) } : DasoState).currentBatch ≠
          ({ s with prevParams := ([] : List ℕ) } : DasoState).lastBatch ∧
          ({ s with prevParams := ([] : List ℕ) } : DasoState).batchesToWait ≠ 0 from hearly)]
      refine ⟨_, rfl, ?_, rotateMod_lt _ _ hL, by simp, by simp, ?_, hL⟩
      · show s.currentBatch + 1 ≤ s.lastBatch
        exact Nat.succ_le_of_lt (lt_of_le_of_ne hb hearly.1)
      · show some s.sendMod ≠ some (rotateMod s.sendMod s.locGpus)
        simp only [ne_eq, Option.some.injEq]
        exact rotateMod_ne _ _ hL
    · rw [if_neg (show ¬ (({ s with prevParams := ([] : List ℕ) } : DasoState).currentBatch ≠
          ({ s with prevParams := ([] : List ℕ) } : DasoState).lastBatch ∧
          ({ s with prevParams := ([] : List ℕ) } : DasoState).batchesToWait ≠ 0) from hearly)]
      rw [syncFinish_of_some ({ s with prevParams := ([] : List ℕ) })
        ({ s with prevParams := ([] : List ℕ) }) s.sendMod (by
          rw [if_neg (show ¬ (({ s with prevParams := ([] : List ℕ) } : DasoState).rank %
            ({ s with prevParams := ([] : List ℕ) } : DasoState).locGpus = s.sendMod)
            from hcur)]
          rw [if_neg (show ¬ (({ s with prevParams := ([] : List ℕ) } :
            DasoState).prevParams ≠ []) from by simp)])]
      by_cases hlastb : s.currentBatch = s.lastBatch
      · rw [if_pos (show _ from hlastb)]
        refine ⟨_, rfl, Nat.zero_le _, (show (0 : ℕ) < s.locGpus by omega),
          by simp, by simp, by simp, hL⟩
      · rw [if_neg (show _ from hlastb)]
        refine ⟨_, rfl, ?_, rotateMod_lt _ _ hL, by simp, by simp, by simp, hL⟩
        show s.currentBatch + 1 ≤ s.lastBatch
        exact Nat.succ_le_of_lt (lt_of_le_of_ne hb hlastb)

/-- Each parameter-update shape of `dasoRcvUpdate` under the invariant. -/
theorem dasoRcvUpdate_shape (s : DasoState) (hlen : s.prevParams.length ≤ 1)
    (hqm : s.prevParams ≠ [] →
      s.sendModM1 = some (s.rank % s.locGpus) ∧ s.batchesToWait ≠ 0) :
    ∃ q1, dasoRcvUpdate s = { s with prevParams := q1 } ∧ q1.length ≤ 1 ∧
      (q1 ≠ [] → s.sendModM1 = some (s.rank % s.locGpus) ∧ s.batchesToWait ≠ 0) := by
  by_cases hq : s.prevParams = []
  · exact ⟨s.prevParams, by rw [dasoRcvUpdate_eq_self s (Or.inr hq)], hlen, hqm⟩
  · by_cases hm : s.sendModM1 = some (s.rank % s.locGpus)
    · refine ⟨[], ?_, by simp, by simp⟩
      rw [dasoRcvUpdate_pop s hm hq, tail_eq_nil_of_len_le_one _ hlen]
    · exact ⟨s.prevParams, by rw [dasoRcvUpdate_eq_self s (Or.inl hm)], hlen, hqm⟩

/-- The local-sync tail of `step` (all branches only toggle the sync flag and advance
the batch) preserves the invariant. -/
theorem stepTail_inv (U : DasoState) (batch lastB ls lmod : ℕ)
    (hUb : U.currentBatch = batch) (hUl : U.lastBatch = lastB)
    (hUsm : U.sendMod < U.locGpus) (hUlen : U.prevParams.length ≤ 1)
    (hUq : U.prevParams ≠ [] →
      U.sendModM1 = some (U.rank % U.locGpus) ∧ U.batchesToWait ≠ 0)
    (hUm1 : U.sendModM1 ≠ some U.sendMod) (hUL : 2 ≤ U.locGpus)
    (hbl : batch + 1 ≤ lastB) :
    ∃ s2, (if ls = 1 ∧ batch + 1 ≠ U.lastBatch then
        some (startLocalSync { U with currentBatch := U.currentBatch + 1 })
      else
        some { (if batch + 1 = (if lmod = 0 then stopLocalSync U
                else if (batch + 1) % ls = 0 then startLocalSync U else U).lastBatch
              then startLocalSync (if lmod = 0 then stopLocalSync U
                else if (batch + 1) % ls = 0 then startLocalSync U else U)
              else (if lmod = 0 then stopLocalSync U
                else if (batch + 1) % ls = 0 then startLocalSync U else U)) with
          currentBatch := (if batch + 1 = (if lmod = 0 then stopLocalSync U
                else if (batch + 1) % ls = 0 then startLocalSync U else U).lastBatch
              then startLocalSync (if lmod = 0 then stopLocalSync U
                else if (batch + 1) % ls = 0 then startLocalSync U else U)
              else (if lmod = 0 then stopLocalSync U
                else if (batch + 1) % ls = 0 then startLocalSync U else U)).currentBatch
            + 1 }) = some s2 ∧ DasoInv s2 := by
  have hgoal : U.currentBatch + 1 ≤ U.lastBatch := by omega
  by_cases c1 : ls = 1 ∧ batch + 1 ≠ U.lastBatch
  · rw [if_pos c1]
    exact ⟨_, rfl, hgoal, hUsm, hUlen, hUq, hUm1, hUL⟩
  · rw [if_neg c1]
    by_cases c2 : lmod = 0
    · rw [if_pos c2]
      by_cases c3 : batch + 1 = (stopLocalSync U).lastBatch
      · rw [if_pos c3]
        exact ⟨_, rfl, hgoal, hUsm, hUlen, hUq, hUm1, hUL⟩
      · rw [if_neg c3]
        exact ⟨_, rfl, hgoal, hUsm, hUlen, hUq, hUm1, hUL⟩
    · rw [if_neg c2]
      by_cases c4 : (batch + 1) % ls = 0
      · rw [if_pos c4]
        by_cases c3 : batch + 1 = (startLocalSync U).lastBatch
        · rw [if_pos c3]
          exact ⟨_, rfl, hgoal, hUsm, hUlen, hUq, hUm1, hUL⟩
        · rw [if_neg c3]
          exact ⟨_, rfl, hgoal, hUsm, hUlen, hUq, hUm1, hUL⟩
      · rw [if_neg c4]
        by_cases c3 : batch + 1 = U.lastBatch
        · rw [if_pos c3]
          exact ⟨_, rfl, hgoal, hUsm, hUlen, hUq, hUm1, hUL⟩
        · rw [if_neg c3]
          exact ⟨_, rfl, hgoal, hUsm, hUlen, hUq, hUm1, hUL⟩

/-- C9: from any state satisfying the send-record invariant, `step` succeeds (neither
the queue-length assertion, the off-rank check, nor an empty-queue pop fires) and the
invariant holds again afterwards; in particular at most one send record is ever
outstanding on the rank's subgroup. -/
theorem C9_single_outstanding_record (s : DasoState) (hinv : DasoInv s) :
    ∃ s2, dasoStep s = some s2 ∧ DasoInv s2 := by
  obtain ⟨hb, hsm, hlen, hqm, hm1ne, hL⟩ := hinv
  unfold dasoStep
  by_cases hsync : s.currentBatch = s.lastBatch ∨
      (if 0 < s.globalSkip then s.currentBatch % s.globalSkip else 0) = 0
  · rw [if_pos hsync]
    exact dasoGlobalSync_inv s _ ⟨hb, hsm, hlen, hqm, hm1ne, hL⟩
  · rw [if_neg hsync]
    have hne : s.currentBatch ≠ s.lastBatch := fun h => hsync (Or.inl h)
    have hlt : s.currentBatch + 1 ≤ s.lastBatch :=
      Nat.succ_le_of_lt (lt_of_le_of_ne hb hne)
    by_cases h2 : (s.currentBatch + 1) % s.globalSkip = 0
    · rw [if_pos h2]
      exact ⟨_, rfl, hlt, hsm, hlen, hqm, hm1ne, hL⟩
    · rw [if_neg h2]
      by_cases h3 : (if 0 < s.globalSkip then s.currentBatch % s.globalSkip else 0) <
          (if s.batchesToWait + s.currentBatch ≤ s.lastBatch then s.batchesToWait
            else s.lastBatch - s.currentBatch)
      · rw [if_pos h3]
        by_cases h4 : s.currentBatch + 1 = s.lastBatch
        · rw [if_pos h4]
          exact ⟨_, rfl, hlt, hsm, hlen, hqm, hm1ne, hL⟩
        · rw [if_neg h4]
          exact ⟨_, rfl, hlt, hsm, hlen, hqm, hm1ne, hL⟩
      · rw [if_neg h3]
        by_cases h5 : (if 0 < s.globalSkip then s.currentBatch % s.globalSkip else 0) =
            (if s.batchesToWait + s.currentBatch ≤ s.lastBatch then s.batchesToWait
              else s.lastBatch - s.currentBatch)
        · rw [if_pos h5]
          obtain ⟨q1, hq1eq, hq1len, hq1m⟩ := dasoRcvUpdate_shape s hlen hqm
          by_cases h6 : 1 < s.localSkip
          · rw [if_pos h6, hq1eq]
            exact stepTail_inv (stopLocalSync { s with prevParams := q1 })
              s.currentBatch s.lastBatch s.localSkip _ rfl rfl hsm hq1len hq1m
              hm1ne hL hlt
          · rw [if_neg h6, hq1eq]
            exact stepTail_inv ({ s with prevParams := q1 })
              s.currentBatch s.lastBatch s.localSkip _ rfl rfl hsm hq1len hq1m
              hm1ne hL hlt
        · rw [if_neg h5]
          exact stepTail_inv s s.currentBatch s.lastBatch s.localSkip _ rfl rfl hsm
            hlen hqm hm1ne hL hlt

/-- A concrete reachable state for the C9 witness: two local GPUs, start of an epoch,
cycling cadence `g = 4`, `w = 1`, empty queue. -/
def dasoInit : DasoState :=
  { currentBatch := 0, lastBatch := 5, epoch := 0, globalSkip := 4, localSkip := 1,
    batchesToWait := 1, sendMod := 0, sendModM1 := none, prevParams := [],
    locGpus := 2, rank := 0, syncOn := true }

/-- Witness for C9 at a concrete invariant state. -/
theorem C9_single_outstanding_record_witness :
    ∃ s2, dasoStep dasoInit = some s2 ∧ DasoInv s2 :=
  C9_single_outstanding_record dasoInit (by decide)

/-- A concrete mid-cycling state for the C8 witness. -/
def cadCyclingState : CadState :=
  { epoch := 5, warmupEpochs := 4, cooldownEpochs := 4, totalEpochs := 20, maxGs := 8,
    globalSkip := 4, localSkip := 1, batchesToWait := 1, gs8Waited := 0 }

/-- Witness for the amended C8 at a concrete cycling state with a stable epoch. -/
theorem C8_invariants_preserved_witness :
    CadInv (epochLossLogic cadCyclingState true) :=
  C8_invariants_preserved cadCyclingState true (by decide) (by decide)

end Heat
